import Mathlib

/-!
Verification development for the actor-critic RL core in `src/rl.py`
(class `RL_AC`).  The Python code is shallowly embedded: numpy float
arrays become functions `ℕ → ℚ` or `List ℚ` (exact rational arithmetic
stands in for IEEE accumulation, which the spec explicitly allows),
numpy row indexing with negative wraparound becomes `pyGet`, Python's
`int()` truncation becomes `pyTrunc`, and fallible code returns
`Option`/`Except`.
-/

namespace RLAC

/-- Configuration fields of `conf` consumed by the return computation:
`MC` (Monte-Carlo vs TD(n) switch) and `nsteps_TD_N` (the lookahead n). -/
structure RLConf where
  MC : Bool
  nsteps_TD_N : ℕ
deriving DecidableEq

/-- `final_lookahead_step` as set in `RL_Solve` (rl.py lines 191-195):
`NSTEPS_SH` under Monte-Carlo, else `min(i + nsteps_TD_N, NSTEPS_SH)`.
`T` stands for `NSTEPS_SH`. -/
def final_lookahead_step (conf : RLConf) (T i : ℕ) : ℕ :=
  if conf.MC then T else min (i + conf.nsteps_TD_N) T

/-- `done_arr[i]` (rl.py lines 169, 191-197): initialised to 0, set to 1
under Monte-Carlo, or when the lookahead hits `NSTEPS_SH` in TD(n) mode.
The numpy array holds floats, hence values in `ℚ`. -/
def done_arr (conf : RLConf) (T i : ℕ) : ℚ :=
  if conf.MC then 1
  else if min (i + conf.nsteps_TD_N) T = T then 1 else 0

/-- `term_arr[i]` (rl.py lines 167-168): zeros with `term_arr[-1] = 1`,
i.e. 1 exactly at index `NSTEPS_SH` of the `NSTEPS_SH+1`-long array. -/
def term_arr (T i : ℕ) : ℚ :=
  if i = T then 1 else 0

/-- `state_next_rollout_arr[i]` (rl.py lines 164, 198-199): rows start as
the zero state and are overwritten with `state_arr[final_lookahead_step+1]`
only on the TD(n) branch that leaves `done_arr[i] = 0`.  The state row type
is abstract (`σ`) with the zero row passed in as `z`. -/
def state_next_rollout_arr {σ : Type} (conf : RLConf) (T : ℕ) (s : ℕ → σ)
    (z : σ) (i : ℕ) : σ :=
  if conf.MC then z
  else if min (i + conf.nsteps_TD_N) T = T then z
  else s (min (i + conf.nsteps_TD_N) T + 1)

/-- `partial_reward_to_go_arr[i] = sum(rwrd_arr[i : final_lookahead_step+1])`
(rl.py line 202); the slice sum is the inclusive sum over
`[i, final_lookahead_step]`. -/
def partial_reward_to_go_arr (conf : RLConf) (T : ℕ) (r : ℕ → ℚ) (i : ℕ) : ℚ :=
  ∑ j ∈ Finset.Icc i (final_lookahead_step conf T i), r j

/-- `total_reward_to_go_arr[i] = sum(rwrd_arr[i : NSTEPS_SH+1])`
(rl.py line 203). -/
def total_reward_to_go_arr (T : ℕ) (r : ℕ → ℚ) (i : ℕ) : ℚ :=
  ∑ j ∈ Finset.Icc i T, r j

/-- The full partial cost-to-go array produced by the loop
`for i in range(NSTEPS_SH+1)` (rl.py line 189), as a list. -/
def partialList (conf : RLConf) (T : ℕ) (r : ℕ → ℚ) : List ℚ :=
  (List.range (T + 1)).map (partial_reward_to_go_arr conf T r)

/-- Reward trace of the concrete scenario of the spec: `T = 3`,
rewards `[1, 2, 3, 10]`. -/
def rwrdEx (i : ℕ) : ℚ :=
  [(1 : ℚ), 2, 3, 10].getD i 0

/-- NumPy row access `arr[i]` on an axis of length `arr.length`: a
non-negative index reads directly, a negative index `i` with
`-len ≤ i` wraps to `i + len`, anything else raises IndexError (`none`). -/
def pyGet {α : Type} (arr : List α) (i : ℤ) : Option α :=
  if 0 ≤ i then arr.get? i.toNat
  else if -(arr.length : ℤ) ≤ i then arr.get? (i + arr.length).toNat
  else none

/-- The control row applied by the episode loop of `RL_Solve` at step
`step_counter = i` (rl.py lines 174-180): row `step_counter - 1` when
`step_counter == NSTEPS_SH - 1`, row `step_counter` otherwise.  The
index arithmetic is Python `int`, hence `ℤ`. -/
def controlApplied {α : Type} (controls : List α) (T i : ℕ) : Option α :=
  pyGet controls (if i = T - 1 then (i : ℤ) - 1 else (i : ℤ))

/-- An environment as used by `RL_Solve`: `step` returns the next state
and the reward of the transition. -/
structure Env (St Ctrl : Type) where
  step : St → Ctrl → St × ℚ

/-- `state_arr` as filled by the episode loop (rl.py lines 174-181):
`state_arr[i+1] = env.step(state_arr[i], control_arr[appliedRow i]).0`;
`none` models an IndexError on the control row. -/
def epState {St Ctrl : Type} (env : Env St Ctrl) (controls : List Ctrl)
    (T : ℕ) (s0 : St) : ℕ → Option St
  | 0 => some s0
  | i + 1 =>
      (epState env controls T s0 i).bind fun s =>
        (controlApplied controls T i).map fun c => (env.step s c).1

/-- `update_target` (rl.py lines 120-125): for every pair produced by
`zip(target_weights, weights)` — stopping at the shorter sequence exactly
as Python's `zip` — the target entry becomes
`param * tau + target_param * (1 - tau)`.  Parameter tensors flatten to
`List ℚ`. -/
def update_target (tau : ℚ) : List ℚ → List ℚ → List ℚ
  | t :: ts, p :: ps => (p * tau + t * (1 - tau)) :: update_target tau ts ps
  | _, _ => []

/-- One observable action of the learn loop of `learn_and_update`
(rl.py lines 133-153). -/
inductive LearnEvent (β : Type) where
  | sample (batch : β)
  | update (batch : β)
  | targetUpdate
deriving DecidableEq

/-- Whether a learn-loop event is the sampling of a batch. -/
def LearnEvent.isSample {β : Type} : LearnEvent β → Bool
  | .sample _ => true
  | .update _ => false
  | .targetUpdate => false

/-- The events of one iteration of the learn loop (rl.py lines 133-153):
sample a batch, update critic and actor on it, then update the target
critic only when `MC` is off. -/
def learn_iter {β : Type} (MC : Bool) (b : β) : List (LearnEvent β) :=
  [LearnEvent.sample b, LearnEvent.update b] ++
    if MC then [] else [LearnEvent.targetUpdate]

/-- One iteration of the learn loop acting on the accumulator
`(update_step_counter, target parameters, event trace)`: the counter is
incremented (rl.py line 153), the target parameters go through
`update_target` unless `MC` (rl.py lines 147-149), and the iteration's
events are appended.  `criticParams i` is an oracle for the critic
parameters right after the i-th `update` call. -/
def learn_step {β : Type} (MC : Bool) (tau : ℚ) (buffer : ℕ → β)
    (criticParams : ℕ → List ℚ) (acc : ℕ × List ℚ × List (LearnEvent β))
    (i : ℕ) : ℕ × List ℚ × List (LearnEvent β) :=
  (acc.1 + 1,
   if MC then acc.2.1 else update_target tau acc.2.1 (criticParams i),
   acc.2.2 ++ learn_iter MC (buffer i))

/-- `learn_and_update` (rl.py lines 127-158): the loop
`for i in range(UPDATE_LOOPS[ep])` threaded over the accumulator, started
from the incoming counter, the incoming target parameters and an empty
event trace. -/
def learn_and_update {β : Type} (MC : Bool) (tau : ℚ) (UPDATE_LOOPS : ℕ → ℕ)
    (ep : ℕ) (buffer : ℕ → β) (criticParams : ℕ → List ℚ)
    (update_step_counter : ℕ) (target : List ℚ) :
    ℕ × List ℚ × List (LearnEvent β) :=
  (List.range (UPDATE_LOOPS ep)).foldl (learn_step MC tau buffer criticParams)
    (update_step_counter, target, [])

/-- Model of one Python float value: a finite rational, one of the two
infinities, or NaN. -/
inductive PyFloat where
  | fin (q : ℚ)
  | inf
  | ninf
  | nan
deriving DecidableEq

/-- `np.isnan` on one value: true exactly on NaN. -/
def PyFloat.isnan : PyFloat → Bool
  | .nan => true
  | _ => false

/-- `np.isfinite` on one value: true exactly on finite rationals. -/
def PyFloat.isFinite : PyFloat → Bool
  | .fin _ => true
  | _ => false

/-- Python `int(x)` on a real value: truncation toward zero. -/
def pyTrunc (q : ℚ) : ℤ :=
  if 0 ≤ q then ⌊q⌋ else ⌈q⌉

/-- The Python return tuple of `create_TO_init`:
`(init_rand_state, init_TO_states, init_TO_controls, NSTEPS_SH,
success_init_flag)`, with Python `None` as `none`. -/
structure TOInit where
  init_rand_state : Option (List PyFloat)
  init_TO_states : Option (List (List PyFloat))
  init_TO_controls : Option (List (List PyFloat))
  NSTEPS_SH : Option ℤ
  success_init_flag : ℕ
deriving DecidableEq

/-- `np.isnan(row).any()` over one state row. -/
def hasNan (s : List PyFloat) : Bool := s.any PyFloat.isnan

/-- The control chosen at one seeding step (rl.py lines 245-248): the zero
control on episode 0, otherwise the actor policy evaluated on the current
state. -/
def seedCtrl (policy : List PyFloat → List PyFloat) (ep nb_action : ℕ)
    (s : List PyFloat) : List PyFloat :=
  if ep = 0 then List.replicate nb_action (PyFloat.fin 0) else policy s

/-- The simulation loop of `create_TO_init` (rl.py lines 244-254), recursing
on the number of remaining steps from the current state `s`: pick the
control, simulate the next state, abort (`none`) as soon as the fresh state
contains a NaN entry, and otherwise return the remaining states and
controls in order. -/
def seedLoop (simulate : List PyFloat → List PyFloat → List PyFloat)
    (policy : List PyFloat → List PyFloat) (ep nb_action : ℕ)
    (s : List PyFloat) :
    ℕ → Option (List (List PyFloat) × List (List PyFloat))
  | 0 => some ([], [])
  | k + 1 =>
      let c := seedCtrl policy ep nb_action s
      let s' := simulate s c
      if hasNan s' then none
      else (seedLoop simulate policy ep nb_action s' k).map
        fun r => (s' :: r.1, c :: r.2)

/-- The state `init_TO_states[i]` the simulation would reach after `i`
seeding steps, as a pure unfolding (no NaN check). -/
def seedState (simulate : List PyFloat → List PyFloat → List PyFloat)
    (policy : List PyFloat → List PyFloat) (ep nb_action : ℕ)
    (s : List PyFloat) : ℕ → List PyFloat
  | 0 => s
  | i + 1 =>
      let t := seedState simulate policy ep nb_action s i
      simulate t (seedCtrl policy ep nb_action t)

/-- `create_TO_init` (rl.py lines 218-256).
`NSTEPS_SH = NSTEPS - int(ICS[-1] / dt)`; when it is 0 the function
returns the flag-0 sentinel at once; when it is negative, execution
reaches `np.empty((NSTEPS_SH, nb_action))`, which raises ValueError
(modelled by `Except.error`); otherwise the simulation loop runs,
returning the flag-0 sentinel on a NaN state and the filled trajectories
with flag 1 on success. -/
def create_TO_init (simulate : List PyFloat → List PyFloat → List PyFloat)
    (policy : List PyFloat → List PyFloat) (NSTEPS : ℤ) (dt : ℚ)
    (nb_action ep : ℕ) (ICS : List ℚ) : Except String TOInit :=
  let NSTEPS_SH : ℤ := NSTEPS - pyTrunc (ICS.getLastD 0 / dt)
  if NSTEPS_SH = 0 then .ok ⟨none, none, none, none, 0⟩
  else if NSTEPS_SH < 0 then .error "negative dimensions are not allowed"
  else
    let s0 : List PyFloat := ICS.map PyFloat.fin
    match seedLoop simulate policy ep nb_action s0 NSTEPS_SH.toNat with
    | none => .ok ⟨none, none, none, none, 0⟩
    | some (sts, ctrls) =>
        .ok ⟨some s0, some (s0 :: sts), some ctrls, some NSTEPS_SH, 1⟩

/-- A simulation step producing an infinite (non-NaN) entry at once. -/
def simInf : List PyFloat → List PyFloat → List PyFloat :=
  fun _ _ => [PyFloat.inf]

/-- A simulation step producing a NaN entry at once. -/
def simNan : List PyFloat → List PyFloat → List PyFloat :=
  fun _ _ => [PyFloat.nan]

end RLAC

/-- C1: In Monte-Carlo mode, for every reward trace of length T+1 and every
index i in 0..T, `partial_return[i] = total_return[i]`, both equal to the sum
of rewards from i through T; and for T = 3, rewards [1, 2, 3, 10] the
computation yields `partial_return = [16, 15, 13, 10]`. -/
theorem C1_mc_return (conf : RLAC.RLConf) (hMC : conf.MC = true) :
    (∀ (T : ℕ) (r : ℕ → ℚ) (i : ℕ), i ≤ T →
      RLAC.partial_reward_to_go_arr conf T r i = RLAC.total_reward_to_go_arr T r i ∧
      RLAC.partial_reward_to_go_arr conf T r i = ∑ j ∈ Finset.Icc i T, r j) ∧
    RLAC.partialList ⟨true, 0⟩ 3 RLAC.rwrdEx = [16, 15, 13, 10] := by
  constructor
  · intro T r i _
    simp [RLAC.partial_reward_to_go_arr, RLAC.total_reward_to_go_arr,
      RLAC.final_lookahead_step, hMC]
  · simp only [RLAC.partialList, List.range_succ, List.range_zero, List.nil_append,
      List.map_append, List.map_cons, List.map_nil]
    norm_num [RLAC.partial_reward_to_go_arr, RLAC.final_lookahead_step,
      Finset.sum_Icc_succ_top, RLAC.rwrdEx]

/-- Witness for C1 at the concrete scenario: conf = ⟨true, 0⟩, T = 3,
rewards [1,2,3,10], i = 1. -/
theorem C1_mc_return_witness :
    RLAC.partial_reward_to_go_arr ⟨true, 0⟩ 3 RLAC.rwrdEx 1 =
      RLAC.total_reward_to_go_arr 3 RLAC.rwrdEx 1 ∧
    RLAC.partial_reward_to_go_arr ⟨true, 0⟩ 3 RLAC.rwrdEx 1 =
      ∑ j ∈ Finset.Icc 1 3, RLAC.rwrdEx j :=
  (C1_mc_return ⟨true, 0⟩ rfl).1 3 RLAC.rwrdEx 1 (by decide)

/-- C2: In TD(n) mode the return computation uses final lookahead
`min(i+n, T)`: `partial_return[i] = total_return[i]` whenever `i + n ≥ T`,
otherwise it is the sum of exactly `n+1` consecutive rewards starting at i;
and for T = 3, rewards [1, 2, 3, 10], n = 1 it yields
`partial_return = [3, 5, 13, 10]`. -/
theorem C2_td_return (conf : RLAC.RLConf) (hMC : conf.MC = false) :
    (∀ (T : ℕ) (r : ℕ → ℚ) (i : ℕ), i ≤ T →
      RLAC.final_lookahead_step conf T i = min (i + conf.nsteps_TD_N) T ∧
      (T ≤ i + conf.nsteps_TD_N →
        RLAC.partial_reward_to_go_arr conf T r i = RLAC.total_reward_to_go_arr T r i) ∧
      (i + conf.nsteps_TD_N < T →
        RLAC.partial_reward_to_go_arr conf T r i =
          ∑ j ∈ Finset.Icc i (i + conf.nsteps_TD_N), r j ∧
        (Finset.Icc i (i + conf.nsteps_TD_N)).card = conf.nsteps_TD_N + 1)) ∧
    RLAC.partialList ⟨false, 1⟩ 3 RLAC.rwrdEx = [3, 5, 13, 10] := by
  constructor
  · intro T r i _hi
    refine ⟨by simp [RLAC.final_lookahead_step, hMC], fun hle => ?_, fun hlt => ?_⟩
    · simp [RLAC.partial_reward_to_go_arr, RLAC.total_reward_to_go_arr,
        RLAC.final_lookahead_step, hMC, min_eq_right hle]
    · refine ⟨by simp [RLAC.partial_reward_to_go_arr, RLAC.final_lookahead_step,
        hMC, min_eq_left hlt.le], ?_⟩
      rw [Nat.card_Icc]
      omega
  · simp only [RLAC.partialList, List.range_succ, List.range_zero, List.nil_append,
      List.map_append, List.map_cons, List.map_nil]
    norm_num [RLAC.partial_reward_to_go_arr, RLAC.final_lookahead_step,
      Finset.sum_Icc_succ_top, RLAC.rwrdEx]

/-- Witness for C2 at conf = ⟨false, 1⟩, T = 3, rewards [1,2,3,10], i = 0
(a strict-lookahead index: 0 + 1 < 3). -/
theorem C2_td_return_witness :
    RLAC.final_lookahead_step ⟨false, 1⟩ 3 0 = min (0 + 1) 3 ∧
    (3 ≤ 0 + 1 →
      RLAC.partial_reward_to_go_arr ⟨false, 1⟩ 3 RLAC.rwrdEx 0 =
        RLAC.total_reward_to_go_arr 3 RLAC.rwrdEx 0) ∧
    (0 + 1 < 3 →
      RLAC.partial_reward_to_go_arr ⟨false, 1⟩ 3 RLAC.rwrdEx 0 =
        ∑ j ∈ Finset.Icc 0 (0 + 1), RLAC.rwrdEx j ∧
      (Finset.Icc 0 (0 + 1)).card = 1 + 1) :=
  (C2_td_return ⟨false, 1⟩ rfl).1 3 RLAC.rwrdEx 0 (by decide)

/-- C4: `done[i] = 1` iff Monte-Carlo mode is on or `i + n ≥ T`;
`terminal[i] = 1` iff `i = T` (so exactly one index in `0..T` has
`terminal = 1`); and `bootstrap_state[i]` is the state at index
`min(i+n, T)+1` when `done[i] = 0` and stays the zero row when
`done[i] = 1`. -/
theorem C4_flags_bootstrap {σ : Type} (conf : RLAC.RLConf) (T : ℕ) (s : ℕ → σ)
    (z : σ) (i : ℕ) (_hi : i ≤ T) :
    (RLAC.done_arr conf T i = 1 ↔ (conf.MC = true ∨ T ≤ i + conf.nsteps_TD_N)) ∧
    (RLAC.term_arr T i = 1 ↔ i = T) ∧
    ((Finset.range (T + 1)).filter (fun j => RLAC.term_arr T j = 1)).card = 1 ∧
    (RLAC.done_arr conf T i = 0 →
      RLAC.state_next_rollout_arr conf T s z i =
        s (min (i + conf.nsteps_TD_N) T + 1)) ∧
    (RLAC.done_arr conf T i = 1 → RLAC.state_next_rollout_arr conf T s z i = z) := by
  have hcard : ((Finset.range (T + 1)).filter (fun j => RLAC.term_arr T j = 1)) = {T} := by
    ext j
    by_cases hj : j = T <;> simp [RLAC.term_arr, hj, Finset.mem_filter, Finset.mem_range]
  by_cases hm : conf.MC = true
  · refine ⟨by simp [RLAC.done_arr, hm], ?_, by rw [hcard]; simp, ?_, ?_⟩
    · by_cases hj : i = T <;> simp [RLAC.term_arr, hj]
    · intro h0
      simp [RLAC.done_arr, hm] at h0
    · intro _
      simp [RLAC.state_next_rollout_arr, hm]
  · have hm' : conf.MC = false := by simpa using hm
    by_cases hmin : min (i + conf.nsteps_TD_N) T = T
    · refine ⟨?_, ?_, by rw [hcard]; simp, ?_, ?_⟩
      · simp [RLAC.done_arr, hm', hmin, min_eq_right_iff.mp hmin]
      · by_cases hj : i = T <;> simp [RLAC.term_arr, hj]
      · intro h0
        simp [RLAC.done_arr, hm', hmin] at h0
      · intro _
        simp [RLAC.state_next_rollout_arr, hm', hmin]
    · refine ⟨?_, ?_, by rw [hcard]; simp, ?_, ?_⟩
      · have : ¬ T ≤ i + conf.nsteps_TD_N := fun hle => hmin (min_eq_right hle)
        simp [RLAC.done_arr, hm', hmin, this]
      · by_cases hj : i = T <;> simp [RLAC.term_arr, hj]
      · intro _
        simp [RLAC.state_next_rollout_arr, hm', hmin]
      · intro h1
        simp [RLAC.done_arr, hm', hmin] at h1

/-- Witness for C4 at conf = ⟨false, 1⟩, T = 3, s = coercion ℕ → ℚ, z = 0,
i = 1 (a bootstrapped index: done = 0, bootstrap state = s 3). -/
theorem C4_flags_bootstrap_witness :
    (RLAC.done_arr ⟨false, 1⟩ 3 1 = 1 ↔ ((false : Bool) = true ∨ 3 ≤ 1 + 1)) ∧
    (RLAC.term_arr 3 1 = 1 ↔ 1 = 3) ∧
    ((Finset.range (3 + 1)).filter (fun j => RLAC.term_arr 3 j = 1)).card = 1 ∧
    (RLAC.done_arr ⟨false, 1⟩ 3 1 = 0 →
      RLAC.state_next_rollout_arr ⟨false, 1⟩ 3 (fun n => (n : ℚ)) 0 1 =
        ((min (1 + 1) 3 + 1 : ℕ) : ℚ)) ∧
    (RLAC.done_arr ⟨false, 1⟩ 3 1 = 1 →
      RLAC.state_next_rollout_arr ⟨false, 1⟩ 3 (fun n => (n : ℚ)) 0 1 = 0) :=
  C4_flags_bootstrap ⟨false, 1⟩ 3 (fun n => (n : ℚ)) 0 1 (by decide)

/-- C3: with T the shortened horizon (at least 2, so that row T-2 exists),
every transition from a step i before T-1 applies control row i, while the
last transition (from step T-1 to the terminal step T) applies control row
T-2: the state at index T is produced from the state at index T-1 with
control row T-2. -/
theorem C3_control_lag {St Ctrl : Type} (env : RLAC.Env St Ctrl)
    (controls : List Ctrl) (T : ℕ) (s0 : St) (hT : 2 ≤ T) :
    (∀ i, i < T - 1 → RLAC.controlApplied controls T i = controls.get? i) ∧
    RLAC.controlApplied controls T (T - 1) = controls.get? (T - 2) ∧
    RLAC.epState env controls T s0 T =
      (RLAC.epState env controls T s0 (T - 1)).bind fun s =>
        (controls.get? (T - 2)).map fun c => (env.step s c).1 := by
  obtain ⟨k, rfl⟩ : ∃ k, T = k + 2 := ⟨T - 2, by omega⟩
  have e2 : k + 2 - 1 = k + 1 := by omega
  have e3 : k + 2 - 2 = k := by omega
  have hmain : RLAC.controlApplied controls (k + 2) (k + 1) = controls.get? k := by
    have e1 : ((k + 1 : ℕ) : ℤ) - 1 = (k : ℤ) := by push_cast; ring
    unfold RLAC.controlApplied
    rw [e2, if_pos rfl, e1]
    unfold RLAC.pyGet
    rw [if_pos (Int.natCast_nonneg k), Int.toNat_natCast]
  refine ⟨?_, ?_, ?_⟩
  · intro i hi
    have hne : ¬ (i = k + 2 - 1) := by omega
    simp only [RLAC.controlApplied, if_neg hne, RLAC.pyGet,
      if_pos (Int.natCast_nonneg i), Int.toNat_natCast]
  · rw [e2, e3]
    exact hmain
  · rw [e2, e3]
    show (RLAC.epState env controls (k + 2) s0 (k + 1)).bind
        (fun s => (RLAC.controlApplied controls (k + 2) (k + 1)).map
          fun c => (env.step s c).1) = _
    rw [hmain]

/-- Witness for C3: a concrete rational environment with T = 2 and
controls [10, 20]; the first transition uses row 0 and the final
transition again uses row 0 (= row T-2). -/
theorem C3_control_lag_witness :
    (∀ i, i < 2 - 1 →
      RLAC.controlApplied [(10 : ℚ), 20] 2 i = [(10 : ℚ), 20].get? i) ∧
    RLAC.controlApplied [(10 : ℚ), 20] 2 (2 - 1) = [(10 : ℚ), 20].get? (2 - 2) ∧
    RLAC.epState ⟨fun s c => (s + c, c)⟩ [(10 : ℚ), 20] 2 (0 : ℚ) 2 =
      (RLAC.epState ⟨fun s c => (s + c, c)⟩ [(10 : ℚ), 20] 2 (0 : ℚ) (2 - 1)).bind
        fun s => ([(10 : ℚ), 20].get? (2 - 2)).map fun c => ((s + c, c) : ℚ × ℚ).1 :=
  C3_control_lag ⟨fun s c => (s + c, c)⟩ [(10 : ℚ), 20] 2 (0 : ℚ) (by decide)

/-- C10: when T = 1 the single transition takes the boundary branch, whose
control index T-2 evaluates to -1; NumPy negative indexing wraps it to the
last (and only) row, so the applied control is row 0, the access is in
range, and the transition is defined. -/
theorem C10_negative_index_wrap {St Ctrl : Type} (env : RLAC.Env St Ctrl)
    (s0 : St) (c : Ctrl) :
    (if (0 : ℕ) = 1 - 1 then ((0 : ℕ) : ℤ) - 1 else ((0 : ℕ) : ℤ)) = -1 ∧
    RLAC.controlApplied [c] 1 0 = [c].get? 0 ∧
    (RLAC.controlApplied [c] 1 0).isSome = true ∧
    RLAC.epState env [c] 1 s0 1 = some (env.step s0 c).1 := by
  refine ⟨by norm_num, ?_, ?_, ?_⟩
  · simp [RLAC.controlApplied, RLAC.pyGet]
  · simp [RLAC.controlApplied, RLAC.pyGet]
  · simp [RLAC.epState, RLAC.controlApplied, RLAC.pyGet]

/-- Elementwise form of `update_target`: entry k of the result is
`tau * source_k + (1 - tau) * target_k`. -/
theorem update_target_elem (tau : ℚ) :
    ∀ (tw w : List ℚ) (k : ℕ), k < tw.length → k < w.length →
      (RLAC.update_target tau tw w).get? k =
        some (tau * w.getD k 0 + (1 - tau) * tw.getD k 0) := by
  intro tw
  induction tw with
  | nil => intro w k hk _; simp at hk
  | cons t ts ih =>
      intro w k hk hk'
      cases w with
      | nil => simp at hk'
      | cons p ps =>
          cases k with
          | zero =>
              simp only [RLAC.update_target, List.get?_cons_zero,
                List.getD_cons_zero, Option.some.injEq]
              ring
          | succ k =>
              simp only [RLAC.update_target, List.get?_cons_succ,
                List.getD_cons_succ]
              exact ih ps k (by simpa using hk) (by simpa using hk')

/-- With tau = 1 the target becomes an exact copy of the source. -/
theorem update_target_tau_one : ∀ (tw w : List ℚ), tw.length = w.length →
    RLAC.update_target 1 tw w = w := by
  intro tw
  induction tw with
  | nil =>
      intro w hw
      cases w with
      | nil => rfl
      | cons p ps => simp at hw
  | cons t ts ih =>
      intro w hw
      cases w with
      | nil => simp at hw
      | cons p ps =>
          simp only [RLAC.update_target, List.cons.injEq]
          exact ⟨by ring, ih ps (by simpa using hw)⟩

/-- With tau = 0 the target is unchanged. -/
theorem update_target_tau_zero : ∀ (tw w : List ℚ), tw.length = w.length →
    RLAC.update_target 0 tw w = tw := by
  intro tw
  induction tw with
  | nil =>
      intro w hw
      cases w with
      | nil => rfl
      | cons p ps => simp at hw
  | cons t ts ih =>
      intro w hw
      cases w with
      | nil => simp at hw
      | cons p ps =>
          simp only [RLAC.update_target, List.cons.injEq]
          exact ⟨by ring, ih ps (by simpa using hw)⟩

/-- The learn loop adds one to the counter on every iteration. -/
theorem foldl_learn_step_fst {β : Type} (MC : Bool) (tau : ℚ) (buffer : ℕ → β)
    (cp : ℕ → List ℚ) :
    ∀ (l : List ℕ) (init : ℕ × List ℚ × List (RLAC.LearnEvent β)),
      (l.foldl (RLAC.learn_step MC tau buffer cp) init).1 = init.1 + l.length := by
  intro l
  induction l with
  | nil => intro init; simp
  | cons i rest ih =>
      intro init
      simp only [List.foldl_cons, ih, RLAC.learn_step, List.length_cons]
      omega

/-- The learn loop appends the events of each iteration in order. -/
theorem foldl_learn_step_events {β : Type} (MC : Bool) (tau : ℚ) (buffer : ℕ → β)
    (cp : ℕ → List ℚ) :
    ∀ (l : List ℕ) (init : ℕ × List ℚ × List (RLAC.LearnEvent β)),
      (l.foldl (RLAC.learn_step MC tau buffer cp) init).2.2 =
        init.2.2 ++ l.flatMap (fun i => RLAC.learn_iter MC (buffer i)) := by
  intro l
  induction l with
  | nil => intro init; simp
  | cons i rest ih =>
      intro init
      simp only [List.foldl_cons, ih, RLAC.learn_step]
      simp [List.flatMap_cons, List.append_assoc]

/-- With MC on, the learn loop never touches the target parameters. -/
theorem foldl_learn_step_target_mc {β : Type} (tau : ℚ) (buffer : ℕ → β)
    (cp : ℕ → List ℚ) :
    ∀ (l : List ℕ) (init : ℕ × List ℚ × List (RLAC.LearnEvent β)),
      (l.foldl (RLAC.learn_step true tau buffer cp) init).2.1 = init.2.1 := by
  intro l
  induction l with
  | nil => intro init; rfl
  | cons i rest ih =>
      intro init
      simp [List.foldl_cons, ih, RLAC.learn_step]

/-- Each iteration of the learn loop samples exactly one batch. -/
theorem learn_iter_one_sample {β : Type} (MC : Bool) (b : β) :
    (RLAC.learn_iter MC b).countP RLAC.LearnEvent.isSample = 1 := by
  cases MC <;>
    simp [RLAC.learn_iter, RLAC.LearnEvent.isSample, List.countP_cons,
      List.countP_nil, List.countP_append]

/-- Counting samples over the whole trace counts the iterations. -/
theorem bind_learn_iter_countP {β : Type} (MC : Bool) (buffer : ℕ → β) :
    ∀ (l : List ℕ),
      ((l.flatMap fun i => RLAC.learn_iter MC (buffer i)).countP
        RLAC.LearnEvent.isSample) = l.length := by
  intro l
  induction l with
  | nil => simp
  | cons i rest ih =>
      simp [List.flatMap_cons, List.countP_append, ih, learn_iter_one_sample]
      omega

/-- C5: the target-critic update sets each target parameter to
`tau * source + (1 - tau) * target`; after one call with tau = 1 each
target parameter equals the source parameter, with tau = 0 every target
parameter is unchanged, and the whole update is skipped (target
parameters untouched) when Monte-Carlo mode is on. -/
theorem C5_target_update :
    (∀ (tau : ℚ) (tw w : List ℚ) (k : ℕ), k < tw.length → k < w.length →
      (RLAC.update_target tau tw w).get? k =
        some (tau * w.getD k 0 + (1 - tau) * tw.getD k 0)) ∧
    (∀ (tw w : List ℚ), tw.length = w.length →
      RLAC.update_target 1 tw w = w) ∧
    (∀ (tw w : List ℚ), tw.length = w.length →
      RLAC.update_target 0 tw w = tw) ∧
    (∀ (β : Type) (tau : ℚ) (UPDATE_LOOPS : ℕ → ℕ) (ep : ℕ) (buffer : ℕ → β)
        (cp : ℕ → List ℚ) (c : ℕ) (tp : List ℚ),
      (RLAC.learn_and_update true tau UPDATE_LOOPS ep buffer cp c tp).2.1 = tp) := by
  refine ⟨update_target_elem, update_target_tau_one, update_target_tau_zero, ?_⟩
  intro β tau UPDATE_LOOPS ep buffer cp c tp
  unfold RLAC.learn_and_update
  exact foldl_learn_step_target_mc tau buffer cp _ _

/-- Witness for C5 at tau = 1/2, target [4], source [8], and an MC learn
loop of 3 iterations started from target [4]. -/
theorem C5_target_update_witness :
    (RLAC.update_target (1/2) [(4 : ℚ)] [(8 : ℚ)]).get? 0 =
      some ((1/2) * ([(8 : ℚ)].getD 0 0) + (1 - 1/2) * ([(4 : ℚ)].getD 0 0)) ∧
    RLAC.update_target 1 [(4 : ℚ)] [(8 : ℚ)] = [(8 : ℚ)] ∧
    RLAC.update_target 0 [(4 : ℚ)] [(8 : ℚ)] = [(4 : ℚ)] ∧
    (RLAC.learn_and_update true (1/2) (fun _ => 3) 0 (fun i => i)
      (fun _ => [(9 : ℚ)]) 5 [(4 : ℚ)]).2.1 = [(4 : ℚ)] :=
  ⟨C5_target_update.1 (1/2) [(4 : ℚ)] [(8 : ℚ)] 0 (by decide) (by decide),
   C5_target_update.2.1 [(4 : ℚ)] [(8 : ℚ)] rfl,
   C5_target_update.2.2.1 [(4 : ℚ)] [(8 : ℚ)] rfl,
   C5_target_update.2.2.2 ℕ (1/2) (fun _ => 3) 0 (fun i => i)
     (fun _ => [(9 : ℚ)]) 5 [(4 : ℚ)]⟩

/-- C6: for every initial counter c and episode index ep the learn loop
performs exactly `UPDATE_LOOPS[ep]` iterations — the event trace is, for
each i, sample batch i, then update on batch i, then the target-critic
update exactly when MC is off — and returns `c + UPDATE_LOOPS[ep]`. -/
theorem C6_learn_loop {β : Type} (MC : Bool) (tau : ℚ) (UPDATE_LOOPS : ℕ → ℕ)
    (ep : ℕ) (buffer : ℕ → β) (cp : ℕ → List ℚ) (c : ℕ) (tp : List ℚ) :
    (RLAC.learn_and_update MC tau UPDATE_LOOPS ep buffer cp c tp).1 =
      c + UPDATE_LOOPS ep ∧
    (RLAC.learn_and_update MC tau UPDATE_LOOPS ep buffer cp c tp).2.2 =
      (List.range (UPDATE_LOOPS ep)).flatMap (fun i =>
        [RLAC.LearnEvent.sample (buffer i), RLAC.LearnEvent.update (buffer i)] ++
          if MC then [] else [RLAC.LearnEvent.targetUpdate]) ∧
    ((RLAC.learn_and_update MC tau UPDATE_LOOPS ep buffer cp c tp).2.2.countP
      RLAC.LearnEvent.isSample) = UPDATE_LOOPS ep := by
  have hev : (RLAC.learn_and_update MC tau UPDATE_LOOPS ep buffer cp c tp).2.2 =
      (List.range (UPDATE_LOOPS ep)).flatMap
        (fun i => RLAC.learn_iter MC (buffer i)) := by
    unfold RLAC.learn_and_update
    rw [foldl_learn_step_events]
    simp
  refine ⟨?_, ?_, ?_⟩
  · unfold RLAC.learn_and_update
    rw [foldl_learn_step_fst]
    simp
  · rw [hev]
    simp [RLAC.learn_iter]
  · rw [hev, bind_learn_iter_countP]
    simp

/-- Unfolding one seeding step at the front of the pure state sequence. -/
theorem seedState_succ_shift
    (simulate : List RLAC.PyFloat → List RLAC.PyFloat → List RLAC.PyFloat)
    (policy : List RLAC.PyFloat → List RLAC.PyFloat) (ep nb_action : ℕ)
    (s : List RLAC.PyFloat) :
    ∀ i, RLAC.seedState simulate policy ep nb_action s (i + 1) =
      RLAC.seedState simulate policy ep nb_action
        (simulate s (RLAC.seedCtrl policy ep nb_action s)) i := by
  intro i
  induction i with
  | zero => rfl
  | succ i ih =>
      have h1 : RLAC.seedState simulate policy ep nb_action s (i + 1 + 1) =
          simulate (RLAC.seedState simulate policy ep nb_action s (i + 1))
            (RLAC.seedCtrl policy ep nb_action
              (RLAC.seedState simulate policy ep nb_action s (i + 1))) := rfl
      rw [h1, ih]
      rfl

/-- The simulation loop aborts exactly when some step within the horizon
produces a state with a NaN entry. -/
theorem seedLoop_none_iff
    (simulate : List RLAC.PyFloat → List RLAC.PyFloat → List RLAC.PyFloat)
    (policy : List RLAC.PyFloat → List RLAC.PyFloat) (ep nb_action : ℕ) :
    ∀ (k : ℕ) (s : List RLAC.PyFloat),
      RLAC.seedLoop simulate policy ep nb_action s k = none ↔
        ∃ i < k, RLAC.hasNan (RLAC.seedState simulate policy ep nb_action s
          (i + 1)) = true := by
  intro k
  induction k with
  | zero => intro s; simp [RLAC.seedLoop]
  | succ k ih =>
      intro s
      have hunf : RLAC.seedLoop simulate policy ep nb_action s (k + 1) =
          (if RLAC.hasNan (simulate s (RLAC.seedCtrl policy ep nb_action s))
           then none
           else (RLAC.seedLoop simulate policy ep nb_action
              (simulate s (RLAC.seedCtrl policy ep nb_action s)) k).map
             fun r => (simulate s (RLAC.seedCtrl policy ep nb_action s) :: r.1,
               RLAC.seedCtrl policy ep nb_action s :: r.2)) := rfl
      by_cases hn : RLAC.hasNan (simulate s (RLAC.seedCtrl policy ep nb_action s)) = true
      · rw [hunf, if_pos hn]
        constructor
        · intro _
          exact ⟨0, Nat.succ_pos k, hn⟩
        · intro _
          rfl
      · have hn' : RLAC.hasNan (simulate s (RLAC.seedCtrl policy ep nb_action s)) = false := by
          simpa using hn
        rw [hunf, if_neg hn, Option.map_eq_none', ih]
        constructor
        · rintro ⟨i, hik, hnan⟩
          refine ⟨i + 1, by omega, ?_⟩
          rw [seedState_succ_shift]
          exact hnan
        · rintro ⟨i, hik, hnan⟩
          cases i with
          | zero =>
              have hfalse : RLAC.hasNan (RLAC.seedState simulate policy ep
                  nb_action s 1) = false := hn'
              rw [hfalse] at hnan
              simp at hnan
          | succ j =>
              refine ⟨j, by omega, ?_⟩
              rw [seedState_succ_shift] at hnan
              exact hnan

/-- C7: the rollout seeder computes the horizon
`NSTEPS_SH = NSTEPS - floor(t / dt)` from the last component t of the
initial state (the Python `int()` truncation agrees with floor since
`t/dt` is non-negative), and whenever this horizon equals 0 it returns
immediately with success flag 0, all other outputs `None`, and no
exception. -/
theorem C7_horizon_zero
    (simulate : List RLAC.PyFloat → List RLAC.PyFloat → List RLAC.PyFloat)
    (policy : List RLAC.PyFloat → List RLAC.PyFloat) (NSTEPS : ℤ) (dt : ℚ)
    (nb_action ep : ℕ) (ICS : List ℚ) (hdt : 0 < dt)
    (ht : 0 ≤ ICS.getLastD 0) :
    RLAC.pyTrunc (ICS.getLastD 0 / dt) = ⌊ICS.getLastD 0 / dt⌋ ∧
    (NSTEPS - ⌊ICS.getLastD 0 / dt⌋ = 0 →
      RLAC.create_TO_init simulate policy NSTEPS dt nb_action ep ICS =
        Except.ok ⟨none, none, none, none, 0⟩) := by
  have htr : RLAC.pyTrunc (ICS.getLastD 0 / dt) = ⌊ICS.getLastD 0 / dt⌋ := by
    unfold RLAC.pyTrunc
    rw [if_pos (div_nonneg ht hdt.le)]
  refine ⟨htr, fun h0 => ?_⟩
  simp only [RLAC.create_TO_init, htr]
  rw [if_pos h0]

/-- Witness for C7: NSTEPS = 2, dt = 1, initial state [2] gives horizon
`2 - floor(2/1) = 0` and the flag-0 sentinel. -/
theorem C7_horizon_zero_witness :
    RLAC.create_TO_init RLAC.simNan (fun _ => []) 2 1 1 0 [(2 : ℚ)] =
      Except.ok ⟨none, none, none, none, 0⟩ :=
  (C7_horizon_zero RLAC.simNan (fun _ => []) 2 1 1 0 [(2 : ℚ)]
      (by norm_num)
      (by rw [show ([(2 : ℚ)].getLastD 0) = 2 from rfl]; norm_num)).2
    (by rw [show ([(2 : ℚ)].getLastD 0) = 2 from rfl]; norm_num)

/-- C8 counterexample: a simulation step that produces the non-finite but
non-NaN state [inf] is not caught — `create_TO_init` runs to completion
and returns success flag 1 with the infinite state stored in the
trajectory, contradicting the claim that any non-finite value aborts with
flag 0. -/
theorem C8_nonfinite_counterexample :
    RLAC.create_TO_init RLAC.simInf (fun _ => []) 1 1 1 0 [(0 : ℚ)] =
      Except.ok ⟨some [RLAC.PyFloat.fin 0],
        some [[RLAC.PyFloat.fin 0], [RLAC.PyFloat.inf]],
        some [[RLAC.PyFloat.fin 0]], some 1, 1⟩ ∧
    RLAC.PyFloat.isFinite RLAC.PyFloat.inf = false := by
  have h0 : RLAC.pyTrunc (([(0 : ℚ)].getLastD 0) / 1) = 0 := by
    rw [show ([(0 : ℚ)].getLastD 0) = 0 from rfl]
    norm_num [RLAC.pyTrunc]
  refine ⟨?_, rfl⟩
  simp only [RLAC.create_TO_init, h0]
  norm_num [RLAC.seedLoop, RLAC.seedCtrl, RLAC.hasNan, RLAC.simInf,
    RLAC.PyFloat.isnan]

/-- C8 (amended): during rollout seeding, if the simulated next state
contains a NaN entry at any step within the horizon, `create_TO_init`
returns the flag-0 sentinel tuple without raising; infinite (non-NaN)
entries are not detected by the check. -/
theorem C8_nan_abort
    (simulate : List RLAC.PyFloat → List RLAC.PyFloat → List RLAC.PyFloat)
    (policy : List RLAC.PyFloat → List RLAC.PyFloat) (NSTEPS : ℤ) (dt : ℚ)
    (nb_action ep : ℕ) (ICS : List ℚ)
    (hpos : 0 < NSTEPS - RLAC.pyTrunc (ICS.getLastD 0 / dt))
    (hnan : ∃ i < (NSTEPS - RLAC.pyTrunc (ICS.getLastD 0 / dt)).toNat,
      RLAC.hasNan (RLAC.seedState simulate policy ep nb_action
        (ICS.map RLAC.PyFloat.fin) (i + 1)) = true) :
    RLAC.create_TO_init simulate policy NSTEPS dt nb_action ep ICS =
      Except.ok ⟨none, none, none, none, 0⟩ := by
  have hloop : RLAC.seedLoop simulate policy ep nb_action
      (ICS.map RLAC.PyFloat.fin)
      (NSTEPS - RLAC.pyTrunc (ICS.getLastD 0 / dt)).toNat = none :=
    (seedLoop_none_iff simulate policy ep nb_action _ _).mpr hnan
  simp only [RLAC.create_TO_init]
  rw [if_neg (by omega), if_neg (by omega), hloop]

/-- Witness for amended C8: a simulation producing [NaN] at the first step
with horizon 1 yields the flag-0 sentinel. -/
theorem C8_nan_abort_witness :
    RLAC.create_TO_init RLAC.simNan (fun _ => []) 1 1 1 0 [(0 : ℚ)] =
      Except.ok ⟨none, none, none, none, 0⟩ :=
  C8_nan_abort RLAC.simNan (fun _ => []) 1 1 1 0 [(0 : ℚ)]
    (by rw [show ([(0 : ℚ)].getLastD 0) = 0 from rfl]; norm_num [RLAC.pyTrunc])
    ⟨0, by rw [show ([(0 : ℚ)].getLastD 0) = 0 from rfl]
           norm_num [RLAC.pyTrunc], rfl⟩

/-- C9: the flag-0 sentinel guard of `create_TO_init` fires only at horizon
exactly 0: a negative horizon passes the guard and execution proceeds to
the negative-length `np.empty` allocation (which raises ValueError) instead
of returning success flag 0. -/
theorem C9_negative_horizon
    (simulate : List RLAC.PyFloat → List RLAC.PyFloat → List RLAC.PyFloat)
    (policy : List RLAC.PyFloat → List RLAC.PyFloat) (NSTEPS : ℤ) (dt : ℚ)
    (nb_action ep : ℕ) (ICS : List ℚ) (hdt : 0 < dt)
    (ht : 0 ≤ ICS.getLastD 0)
    (hneg : NSTEPS - ⌊ICS.getLastD 0 / dt⌋ < 0) :
    RLAC.create_TO_init simulate policy NSTEPS dt nb_action ep ICS =
      Except.error "negative dimensions are not allowed" := by
  have htr : RLAC.pyTrunc (ICS.getLastD 0 / dt) = ⌊ICS.getLastD 0 / dt⌋ := by
    unfold RLAC.pyTrunc
    rw [if_pos (div_nonneg ht hdt.le)]
  simp only [RLAC.create_TO_init, htr]
  rw [if_neg (by omega), if_pos hneg]

/-- Witness for C9: NSTEPS = 0, dt = 1, initial state [1] gives horizon
`0 - floor(1/1) = -1 < 0` and the ValueError result. -/
theorem C9_negative_horizon_witness :
    RLAC.create_TO_init RLAC.simNan (fun _ => []) 0 1 1 0 [(1 : ℚ)] =
      Except.error "negative dimensions are not allowed" :=
  C9_negative_horizon RLAC.simNan (fun _ => []) 0 1 1 0 [(1 : ℚ)]
    (by norm_num)
    (by rw [show ([(1 : ℚ)].getLastD 0) = 1 from rfl]; norm_num)
    (by rw [show ([(1 : ℚ)].getLastD 0) = 1 from rfl]; norm_num)
